import Mathlib

/-!
Verification development for the file organizer (`organizer.py`).

The Python source is embedded shallowly:

* paths are a list of parent components plus a final name; filesystem
  existence is membership in a finite list of existing paths;
* `Nat.repr` plays the role of Python's decimal rendering of the collision
  counter in `f"{stem}_{counter}{suffix}"`, and is proved injective;
* the mutable extension-to-category dict is an association list with
  Python's assignment semantics, threaded explicitly;
* per-file filesystem failures (directory creation, move) are modelled by
  failure oracles, matching the broad `except` handlers in the source.
-/

namespace Organizer

/-! ### Injectivity of decimal rendering (`Nat.repr`)

Python renders the collision counter with `f"..{counter}.."`; the embedding
uses `Nat.repr`, which is core Lean's decimal rendering.  We prove it
injective so that distinct counters give distinct candidate file names. -/

theorem digitChar_inj_lt10 {a b : Nat} (ha : a < 10) (hb : b < 10)
    (h : Nat.digitChar a = Nat.digitChar b) : a = b := by
  interval_cases a <;> interval_cases b <;>
    first
      | rfl
      | exact absurd h (by decide)

theorem toDigitsCore_eq_digits :
    ∀ (n : Nat), 0 < n → ∀ (f : Nat), n < f → ∀ (l : List Char),
      Nat.toDigitsCore 10 f n l =
        ((Nat.digits 10 n).reverse.map Nat.digitChar) ++ l := by
  intro n
  induction n using Nat.strong_induction_on with
  | _ n ih =>
    intro hn f hf l
    match f, hf with
    | f + 1, hf =>
      rw [Nat.digits_def' (by norm_num : (1 : ℕ) < 10) hn]
      simp only [Nat.toDigitsCore]
      by_cases h10 : n / 10 = 0
      · have : Nat.digits 10 (n / 10) = [] := by rw [h10]; simp
        simp [h10, this]
      · have hpos : 0 < n / 10 := Nat.pos_of_ne_zero h10
        have hlt : n / 10 < n := Nat.div_lt_self hn (by norm_num)
        have hfuel : n / 10 < f := by omega
        rw [if_neg h10, ih (n / 10) hlt hpos f hfuel]
        simp

theorem toDigits_eq_digits (n : Nat) (hn : 0 < n) :
    Nat.toDigits 10 n = (Nat.digits 10 n).reverse.map Nat.digitChar := by
  rw [Nat.toDigits, toDigitsCore_eq_digits n hn (n + 1) (Nat.lt_succ_self n),
    List.append_nil]

theorem map_digitChar_inj :
    ∀ (l₁ l₂ : List Nat), (∀ x ∈ l₁, x < 10) → (∀ x ∈ l₂, x < 10) →
      l₁.map Nat.digitChar = l₂.map Nat.digitChar → l₁ = l₂
  | [], [], _, _, _ => rfl
  | [], _ :: _, _, _, h => by simp at h
  | _ :: _, [], _, _, h => by simp at h
  | a :: l₁, b :: l₂, h₁, h₂, h => by
    simp only [List.map_cons, List.cons.injEq] at h
    have hab := digitChar_inj_lt10 (h₁ a (by simp)) (h₂ b (by simp)) h.1
    rw [hab, map_digitChar_inj l₁ l₂ (fun x hx => h₁ x (by simp [hx]))
      (fun x hx => h₂ x (by simp [hx])) h.2]

theorem toDigits_ten_inj {m n : Nat} (h : Nat.toDigits 10 m = Nat.toDigits 10 n) :
    m = n := by
  have key : ∀ a b : Nat, 0 < a → 0 < b →
      Nat.toDigits 10 a = Nat.toDigits 10 b → a = b := by
    intro a b ha hb hab
    rw [toDigits_eq_digits a ha, toDigits_eq_digits b hb] at hab
    have hrev := map_digitChar_inj _ _
      (fun x hx => Nat.digits_lt_base (by norm_num) (List.mem_reverse.mp hx))
      (fun x hx => Nat.digits_lt_base (by norm_num) (List.mem_reverse.mp hx)) hab
    have hdig : Nat.digits 10 a = Nat.digits 10 b :=
      List.reverse_injective hrev
    calc a = Nat.ofDigits 10 (Nat.digits 10 a) := (Nat.ofDigits_digits 10 a).symm
    _ = Nat.ofDigits 10 (Nat.digits 10 b) := by rw [hdig]
    _ = b := Nat.ofDigits_digits 10 b
  have zero_case : ∀ b : Nat, 0 < b → Nat.toDigits 10 0 ≠ Nat.toDigits 10 b := by
    intro b hb hz
    have h0 : Nat.toDigits 10 0 = ['0'] := by decide
    rw [h0, toDigits_eq_digits b hb] at hz
    have h0' : ([0] : List Nat).map Nat.digitChar = ['0'] := by decide
    have := map_digitChar_inj [0] (Nat.digits 10 b).reverse (by decide)
      (fun x hx => Nat.digits_lt_base (by norm_num) (List.mem_reverse.mp hx))
      (by rw [h0', hz])
    have hdig : Nat.digits 10 b = [0] := by
      have := congrArg List.reverse this
      simpa using this.symm
    have : b = 0 := by
      have hb' := Nat.ofDigits_digits 10 b
      rw [hdig] at hb'
      simpa [Nat.ofDigits] using hb'.symm
    omega
  rcases Nat.eq_zero_or_pos m with hm | hm <;> rcases Nat.eq_zero_or_pos n with hn | hn
  · omega
  · exact absurd (hm ▸ h) (zero_case n hn)
  · exact absurd (hn ▸ h.symm) (zero_case m hm)
  · exact key m n hm hn h

theorem Nat_repr_injective : Function.Injective Nat.repr := by
  intro m n h
  apply toDigits_ten_inj (m := m) (n := n)
  have := congrArg String.data h
  simpa [Nat.repr, List.asString] using this

/-! ### Paths

A filesystem path is its parent's components plus the final name, mirroring
how the source only ever combines `parent / name`.  A filesystem state, for
the purposes of `handle_collision`, is the finite list of paths that exist
at call time. -/

structure FsPath where
  parent : List String
  name : String
deriving DecidableEq

/-- Index of the last dot in a character list, Python's `name.rfind('.')`
(returning `none` instead of `-1` when absent). -/
def lastDotIdx (cs : List Char) : Option Nat :=
  ((List.range cs.length).filter (fun i => cs.getD i ' ' == '.')).getLast?

/-- Python `PurePath.stem` and `PurePath.suffix` as one splitter: the name is
split at its last dot provided that dot is neither the first nor the last
character; otherwise the stem is the whole name and the suffix is empty. -/
def pySplit (name : String) : String × String :=
  match lastDotIdx name.data with
  | some i =>
      if 0 < i ∧ i < name.data.length - 1 then
        (⟨name.data.take i⟩, ⟨name.data.drop i⟩)
      else (name, "")
  | none => (name, "")

def pyStem (name : String) : String := (pySplit name).1

def pySuffix (name : String) : String := (pySplit name).2

/-- Candidate path built by `handle_collision` for a given counter value:
`parent / f"{stem}_{counter}{suffix}"` (lines 92 and 95 of the source). -/
def collisionCandidate (p : FsPath) (counter : Nat) : FsPath :=
  ⟨p.parent, pyStem p.name ++ "_" ++ Nat.repr counter ++ pySuffix p.name⟩

theorem collisionCandidate_inj (p : FsPath) {m n : Nat}
    (h : collisionCandidate p m = collisionCandidate p n) : m = n := by
  have hname := congrArg FsPath.name h
  simp only [collisionCandidate] at hname
  have hdata := congrArg String.data hname
  simp only [String.data_append, List.append_assoc] at hdata
  have h1 := List.append_cancel_left hdata
  have h2 := List.append_cancel_left h1
  have h3 := List.append_cancel_right h2
  exact Nat_repr_injective (String.ext h3)

/-- Candidate names with distinct counters are distinct, so on a finite
filesystem arbitrarily large counters give free candidates. -/
theorem exists_free_candidate (p : FsPath) :
    ∀ (fs : List FsPath) (k : Nat), ∃ n, k ≤ n ∧ collisionCandidate p n ∉ fs := by
  intro fs
  induction fs with
  | nil => exact fun k => ⟨k, le_rfl, List.not_mem_nil _⟩
  | cons q t ih =>
    intro k
    obtain ⟨n, hkn, hn⟩ := ih k
    by_cases hq : collisionCandidate p n = q
    · obtain ⟨n', hkn', hn'⟩ := ih (n + 1)
      refine ⟨n', by omega, ?_⟩
      intro hmem
      rcases List.mem_cons.mp hmem with h | h
      · exact absurd (collisionCandidate_inj p (h.trans hq.symm)) (by omega)
      · exact hn' h
    · refine ⟨n, hkn, ?_⟩
      intro hmem
      rcases List.mem_cons.mp hmem with h | h
      · exact hq h
      · exact hn h

theorem exists_free_candidate_succ (fs : List FsPath) (p : FsPath) :
    ∃ n, collisionCandidate p (n + 1) ∉ fs := by
  obtain ⟨n, hk, hn⟩ := exists_free_candidate p fs 1
  exact ⟨n - 1, by rwa [Nat.sub_add_cancel hk]⟩

/-- Embedding of `handle_collision` (lines 78–96).  If the intended path does
not exist it is returned unchanged; otherwise the while loop of the source
returns the first candidate `stem_counter.suffix`, counting from 1, that does
not exist, which is the least free counter; `exists_free_candidate_succ`
discharges the loop's termination. -/
def handle_collision (fs : List FsPath) (p : FsPath) : FsPath :=
  if p ∈ fs then
    collisionCandidate p (Nat.find (exists_free_candidate_succ fs p) + 1)
  else p

/-! ### Constants (lines 9–12 of the source) -/

def CONFIG_FILE_NAME : String := "file_types.json"

def DEFAULT_OTHERS_FOLDER : String := "Others"

def LOG_FILE_NAME : String := "organizer.log"

def SCRIPT_NAME : String := "organizer.py"

/-! ### The extension-to-category dictionary

A `CategoryMap` is the parsed JSON config: category name to list of
extension strings, in iteration (= insertion) order, exactly the order the
Python `dict.items()` loops see.  The mutable cache dict is an association
list; `dictSet` is Python dict assignment (overwrite in place or append). -/

abbrev CategoryMap := List (String × List String)

abbrev Cache := List (String × String)

/-- Python `str.lower()`.  This is extensionally the library's
`String.toLower` (see `strLower_eq_toLower`), stated over the character
list so that it reduces definitionally on concrete strings. -/
def strLower (s : String) : String :=
  ⟨s.data.map Char.toLower⟩

theorem strLower_eq_toLower (s : String) : strLower s = s.toLower :=
  (String.map_eq Char.toLower s).symm

def dictSet : Cache → String → String → Cache
  | [], k, v => [(k, v)]
  | (k', v') :: rest, k, v =>
      if k' = k then (k, v) :: rest else (k', v') :: dictSet rest k v

/-- Python `d.get(k)`. -/
def dictGet? : Cache → String → Option String
  | [], _ => none
  | q :: t, k => if q.1 = k then some q.2 else dictGet? t k

/-- Python `k in d`: the key is present exactly when lookup succeeds. -/
def dictMem (c : Cache) (k : String) : Bool :=
  (dictGet? c k).isSome

@[simp] theorem dictGet?_nil (k : String) : dictGet? [] k = none := rfl

theorem dictGet?_dictSet (c : Cache) (k v k' : String) :
    dictGet? (dictSet c k v) k' = if k = k' then some v else dictGet? c k' := by
  induction c with
  | nil => simp [dictSet, dictGet?]
  | cons q t ih =>
    by_cases hq : q.1 = k
    · by_cases hk : k = k' <;> simp [dictSet, dictGet?, hq, hk]
    · by_cases hqk : q.1 = k'
      · have hk : ¬ k = k' := fun h => hq (hqk.trans h.symm)
        have hkk : ¬ k' = k := fun h => hk h.symm
        simp [dictSet, dictGet?, hq, hqk, hk, hkk]
      · simp [dictSet, dictGet?, hq, hqk, ih]

/-- Inner loop of the cache pre-population in `organize_files`
(lines 113–114): every extension is lowercased and assigned,
overwriting any previous category for the same key. -/
def popInsertExts (category : String) (c : Cache) (exts : List String) : Cache :=
  exts.foldl (fun c ext => dictSet c (strLower ext) category) c

/-- Cache pre-population in `organize_files` (lines 110–114). -/
def prepopulateCache (m : CategoryMap) : Cache :=
  m.foldl (fun c q => popInsertExts q.1 c q.2) []

/-- Inner loop of the lazy cache build inside `get_category_for_extension`
(lines 68–72): unlike the pre-population, this one only inserts a key that
is not already present. -/
def fwInsertExts (category : String) (c : Cache) (exts : List String) : Cache :=
  exts.foldl
    (fun c ext =>
      let normalized := strLower ext
      if dictMem c normalized then c else dictSet c normalized category) c

def fwBuild (m : CategoryMap) (c : Cache) : Cache :=
  m.foldl (fun c q => fwInsertExts q.1 c q.2) c

/-- Embedding of `get_category_for_extension` (lines 54–76).  The mutable
dict argument is threaded explicitly: the returned cache models the
in-place mutation. -/
def get_category_for_extension (extension : String) (file_types_map : CategoryMap)
    (cache : Cache) : String × Cache :=
  if extension = "" then (DEFAULT_OTHERS_FOLDER, cache)
  else if dictMem cache extension then
    ((dictGet? cache extension).getD DEFAULT_OTHERS_FOLDER, cache)
  else
    let cache1 := if cache.isEmpty then fwBuild file_types_map cache else cache
    ((dictGet? cache1 (strLower extension)).getD DEFAULT_OTHERS_FOLDER, cache1)

/-- Extension-to-category resolution exactly as `organize_files` performs it
(lines 133–139): the file's suffix is lowercased and then looked up through
`get_category_for_extension` with the pre-populated cache. -/
def organizeResolve (m : CategoryMap) (extension : String) : String :=
  (get_category_for_extension (strLower extension) m (prepopulateCache m)).1

theorem dictGet?_popInsertExts (v : String) :
    ∀ (l : List String) (c : Cache) (k : String),
      dictGet? (popInsertExts v c l) k =
        if l.any (fun x => strLower x == k) then some v else dictGet? c k
  | [], c, k => by simp [popInsertExts]
  | x :: t, c, k => by
    have ih := dictGet?_popInsertExts v t (dictSet c (strLower x) v) k
    simp only [popInsertExts, List.foldl_cons] at ih ⊢
    rw [ih, dictGet?_dictSet]
    by_cases hx : strLower x = k <;>
      by_cases ht : t.any (fun x => strLower x == k) <;>
        simp [hx, ht, List.any_cons, beq_iff_eq]

/-- Lookup in the pre-populated cache finds the category of the LAST pair in
iteration order whose extension list mentions the key (last write wins). -/
theorem dictGet?_prepopulate_aux :
    ∀ (l : CategoryMap) (c : Cache) (k : String),
      dictGet? (l.foldl (fun c q => popInsertExts q.1 c q.2) c) k =
        ((l.reverse.find? (fun q => q.2.any (fun x => strLower x == k))).map
          (fun q => q.1)).or (dictGet? c k)
  | [], c, k => by simp
  | q :: t, c, k => by
    have ih := dictGet?_prepopulate_aux t (popInsertExts q.1 c q.2) k
    simp only [List.foldl_cons] at ih ⊢
    rw [ih, dictGet?_popInsertExts]
    rcases hft : t.reverse.find? (fun q => q.2.any (fun x => strLower x == k)) with _ | q'
    · by_cases hq : q.2.any (fun x => strLower x == k) <;>
        simp [List.reverse_cons, List.find?_append, hft, hq]
    · simp [List.reverse_cons, List.find?_append, hft]

theorem dictGet?_prepopulate (m : CategoryMap) (k : String) :
    dictGet? (prepopulateCache m) k =
      (m.reverse.find? (fun q => q.2.any (fun x => strLower x == k))).map
        (fun q => q.1) := by
  have h := dictGet?_prepopulate_aux m [] k
  simpa [prepopulateCache] using h

theorem char_toNat_ofNat {n : Nat} (h : n.isValidChar) : (Char.ofNat n).toNat = n := by
  simp [Char.ofNat, h, Char.ofNatAux, Char.toNat, UInt32.toNat]

theorem char_toLower_idem (c : Char) : c.toLower.toLower = c.toLower := by
  unfold Char.toLower
  by_cases h : c.toNat ≥ 65 ∧ c.toNat ≤ 90
  · have hvalid : (c.toNat + 32).isValidChar := Or.inl (by omega)
    have htn : (Char.ofNat (c.toNat + 32)).toNat = c.toNat + 32 := char_toNat_ofNat hvalid
    rw [if_pos h, htn, if_neg (by omega)]
  · rw [if_neg h, if_neg h]

theorem strLower_idem (s : String) : strLower (strLower s) = strLower s := by
  simp only [strLower, List.map_map]
  congr 1
  exact List.map_congr_left (fun a _ => char_toLower_idem a)

theorem dictGet?_fwInsertExts_absent (v : String) :
    ∀ (l : List String) (c : Cache) (k : String),
      (∀ x ∈ l, strLower x ≠ k) → dictGet? (fwInsertExts v c l) k = dictGet? c k
  | [], c, k, _ => by simp [fwInsertExts]
  | x :: t, c, k, h => by
    have hx : strLower x ≠ k := h x (by simp)
    have ih := dictGet?_fwInsertExts_absent v t
      (if dictMem c (strLower x) then c else dictSet c (strLower x) v) k
      (fun y hy => h y (by simp [hy]))
    simp only [fwInsertExts, List.foldl_cons] at ih ⊢
    rw [ih]
    by_cases hm : dictMem c (strLower x)
    · simp [hm]
    · simp [hm, dictGet?_dictSet, hx]

theorem dictGet?_fwBuild_absent :
    ∀ (m : CategoryMap) (c : Cache) (k : String),
      (∀ q ∈ m, ∀ x ∈ q.2, strLower x ≠ k) → dictGet? (fwBuild m c) k = dictGet? c k
  | [], _, _, _ => by simp [fwBuild]
  | q :: t, c, k, h => by
    have ih := dictGet?_fwBuild_absent t (fwInsertExts q.1 c q.2) k
      (fun r hr => h r (by simp [hr]))
    simp only [fwBuild, List.foldl_cons] at ih ⊢
    rw [ih, dictGet?_fwInsertExts_absent q.1 q.2 c k (h q (by simp))]

/-! ### The directory scan (`organize_files`, lines 99–184)

The filesystem, as far as `organize_files` observes and mutates it, is

* the immediate entries of the target directory (name plus kind, where the
  kind `other` covers entries that are neither files nor directories, such
  as broken symlinks: they fall through both `is_file` and `is_dir`);
* the paths existing inside category subfolders, as pairs
  (folder name, entry name), which is what the collision checks consult and
  what a successful move extends.

The scan iterates over a snapshot of the entry list.  `shutil.move` and
`Path.mkdir` can raise for external reasons (permissions, races); the broad
`except` blocks of the source catch everything, so their outcomes are
modelled by boolean failure oracles indexed by the name of the entry being
processed (each entry of a directory is processed exactly once). -/

inductive EntryKind where
  | file
  | dir
  | other
deriving DecidableEq

structure Entry where
  name : String
  kind : EntryKind
deriving DecidableEq

structure FS where
  targetEntries : List Entry
  dest : List (String × String)
deriving DecidableEq

structure ScanState where
  fs : FS
  moved : Nat
  skipped : Nat
deriving DecidableEq

/-- Known category folder names (lines 117–118): the keys of the map plus
the default folder. -/
def knownCategoryFolders (m : CategoryMap) : List String :=
  m.map (fun q => q.1) ++ [DEFAULT_OTHERS_FOLDER]

/-- The skip condition of lines 125–128: the script itself, its config, the
log file, and any directory whose name is a known category folder. -/
def protectedEntry (m : CategoryMap) (e : Entry) : Prop :=
  e.name = SCRIPT_NAME ∨ e.name = CONFIG_FILE_NAME ∨ e.name = LOG_FILE_NAME ∨
    (e.kind = EntryKind.dir ∧ e.name ∈ knownCategoryFolders m)

instance (m : CategoryMap) (e : Entry) : Decidable (protectedEntry m e) :=
  inferInstanceAs (Decidable (_ ∨ _ ∨ _ ∨ (_ ∧ _)))

/-- Effect of `destination_folder_path.mkdir(parents=True, exist_ok=True)`
(line 146) on the target listing: the category folder appears as a directory
entry if no entry of that name is present; the `dest` paths are unchanged. -/
def mkdirEffect (fs : FS) (category : String) : FS :=
  if fs.targetEntries.any (fun e => e.name == category) then fs
  else { fs with targetEntries := fs.targetEntries ++ [⟨category, EntryKind.dir⟩] }

/-- Effect of a successful `shutil.move` (line 167): the moved entry leaves
the target listing and the final destination path comes into existence. -/
def moveEffect (fs : FS) (e : Entry) (category finalName : String) : FS :=
  { targetEntries := fs.targetEntries.erase e
  , dest := fs.dest ++ [(category, finalName)] }

/-- Destination paths existing inside the target, as `FsPath`s relative to
the target directory, for the collision checks. -/
def destPaths (fs : FS) : List FsPath :=
  fs.dest.map (fun q => ⟨[q.1], q.2⟩)

/-- Processing of one file entry (lines 132–173).  `mkF`/`mvF` report whether
the mkdir of line 146 resp. the move of line 167 raises for this file.  In
dry-run mode the two logging branches of lines 157–164 are kept apart even
though they produce the same state, mirroring the early `continue` of
line 161; the collision preview of line 158 only feeds the log message. -/
def processFile (m : CategoryMap) (dry : Bool) (mkF mvF : String → Bool)
    (e : Entry) (s : ScanState) (cache : Cache) : ScanState × Cache :=
  let res := get_category_for_extension (strLower (pySuffix e.name)) m cache
  let category_name := res.1
  let cache1 := res.2
  if dry then
    if (s.fs.dest.contains (category_name, e.name)) then
      ({ s with moved := s.moved + 1 }, cache1)
    else
      ({ s with moved := s.moved + 1 }, cache1)
  else
    if mkF e.name then
      ({ s with skipped := s.skipped + 1 }, cache1)
    else
      let fs1 := mkdirEffect s.fs category_name
      let final := handle_collision (destPaths fs1) ⟨[category_name], e.name⟩
      if mvF e.name then
        ({ s with fs := fs1, skipped := s.skipped + 1 }, cache1)
      else
        ({ fs := moveEffect fs1 e category_name final.name
         , moved := s.moved + 1, skipped := s.skipped }, cache1)

/-- One iteration of the scan loop (lines 123–177): protected entries are
skipped before anything else; files are processed; directories (line 175)
and anything that is neither file nor directory fall through untouched. -/
def scanStep (m : CategoryMap) (dry : Bool) (mkF mvF : String → Bool)
    (sc : ScanState × Cache) (e : Entry) : ScanState × Cache :=
  if protectedEntry m e then sc
  else
    match e.kind with
    | EntryKind.file => processFile m dry mkF mvF e sc.1 sc.2
    | EntryKind.dir => sc
    | EntryKind.other => sc

/-- Embedding of `organize_files` (lines 99–184).  `targetIsDir` is the
outcome of the `target_dir_path.is_dir()` precondition (line 103): when it
fails the function only logs and returns, mutating nothing and processing
no entry.  Otherwise the cache is pre-populated (lines 110–114) and the
snapshot of the directory listing is scanned once.  The result is the final
filesystem together with the counters `files_moved` and `files_skipped`. -/
def organize_files (targetIsDir : Bool) (fs : FS) (m : CategoryMap)
    (dry : Bool) (mkF mvF : String → Bool) : FS × Nat × Nat :=
  if targetIsDir then
    let init : ScanState × Cache := (⟨fs, 0, 0⟩, prepopulateCache m)
    let r := (fs.targetEntries.foldl (scanStep m dry mkF mvF) init).1
    (r.fs, r.moved, r.skipped)
  else (fs, 0, 0)

/-! ### Scan invariants (helper lemmas) -/

theorem scanStep_dry_preserves (m : CategoryMap) (mkF mvF : String → Bool)
    (sc : ScanState × Cache) (e : Entry) :
    (scanStep m true mkF mvF sc e).1.fs = sc.1.fs ∧
      (scanStep m true mkF mvF sc e).1.skipped = sc.1.skipped := by
  unfold scanStep
  by_cases hp : protectedEntry m e
  · simp [hp]
  · simp only [if_neg hp]
    cases e.kind
    · unfold processFile
      split <;> simp
    · exact ⟨rfl, rfl⟩
    · exact ⟨rfl, rfl⟩

theorem foldl_dry_preserves (m : CategoryMap) (mkF mvF : String → Bool) :
    ∀ (l : List Entry) (sc : ScanState × Cache),
      (l.foldl (scanStep m true mkF mvF) sc).1.fs = sc.1.fs ∧
        (l.foldl (scanStep m true mkF mvF) sc).1.skipped = sc.1.skipped
  | [], sc => ⟨rfl, rfl⟩
  | e :: t, sc => by
    have hstep := scanStep_dry_preserves m mkF mvF sc e
    have ht := foldl_dry_preserves m mkF mvF t (scanStep m true mkF mvF sc e)
    exact ⟨ht.1.trans hstep.1, ht.2.trans hstep.2⟩

theorem mem_mkdirEffect {p : Entry} {fs : FS} (category : String)
    (h : p ∈ fs.targetEntries) : p ∈ (mkdirEffect fs category).targetEntries := by
  unfold mkdirEffect
  split
  · exact h
  · exact List.mem_append_left _ h

theorem mem_processFile (m : CategoryMap) (dry : Bool) (mkF mvF : String → Bool)
    (e p : Entry) (hne : p ≠ e) (s : ScanState) (cache : Cache)
    (h : p ∈ s.fs.targetEntries) :
    p ∈ (processFile m dry mkF mvF e s cache).1.fs.targetEntries := by
  unfold processFile
  cases dry
  · simp only [Bool.false_eq_true, if_false]
    by_cases hmk : mkF e.name
    · simpa [hmk]
    · by_cases hmv : mvF e.name
      · simpa [hmk, hmv] using mem_mkdirEffect _ h
      · simp only [hmk, hmv, if_false]
        unfold moveEffect
        exact (List.mem_erase_of_ne hne).mpr (mem_mkdirEffect _ h)
  · simp only [if_true]
    split <;> simpa

theorem mem_foldl_protected (m : CategoryMap) (dry : Bool) (mkF mvF : String → Bool)
    (p : Entry) (hp : protectedEntry m p) :
    ∀ (l : List Entry) (sc : ScanState × Cache),
      p ∈ sc.1.fs.targetEntries →
        p ∈ (l.foldl (scanStep m dry mkF mvF) sc).1.fs.targetEntries
  | [], _, h => h
  | e :: t, sc, h => by
    apply mem_foldl_protected m dry mkF mvF p hp t
    unfold scanStep
    by_cases hpe : protectedEntry m e
    · simpa [hpe]
    · have hne : p ≠ e := fun hh => hpe (hh ▸ hp)
      simp only [if_neg hpe]
      cases e.kind
      · exact mem_processFile m dry mkF mvF e p hne sc.1 sc.2 h
      · exact h
      · exact h

/-! ### Claims -/

/-- C1, counterexample.  In the map `[("A", [".x"]), ("B", [".x"])]` the
extension ".x" appears under the first-iterated category "A", so the claim
(first-iterated category wins for the lookup used by `organize_files`)
demands that ".x" resolve to "A".  It resolves to "B": the pre-population
loop of lines 112–114 assigns with plain `dict` item assignment, so the
last-iterated category overwrites the earlier one. -/
theorem first_category_wins_cex :
    organizeResolve [("A", [".x"]), ("B", [".x"])] ".x" = "B" ∧
      ("B" : String) ≠ "A" ∧ (".x" : String) ∈ [".x"] := by
  refine ⟨by decide, by decide, by decide⟩

/-- C1, amended.  For every extension `ext` (in any letter case) whose
normalization is nonempty, if the LAST pair in `CategoryMap` iteration
order whose extension list contains an extension normalizing like `ext` is
`(C, exts)`, then the lookup used by `organize_files` resolves `ext` to
`C`: the pre-populated index overwrites earlier entries for the same
normalized extension, so the last-iterated category wins; in particular an
extension appearing under exactly one category resolves to that category,
regardless of case. -/
theorem last_category_wins (m : CategoryMap) (ext C : String) (exts : List String)
    (hne : strLower ext ≠ "")
    (hlast : m.reverse.find? (fun q => q.2.any (fun x => strLower x == strLower ext))
      = some (C, exts)) :
    organizeResolve m ext = C := by
  have hget : dictGet? (prepopulateCache m) (strLower ext) = some C := by
    rw [dictGet?_prepopulate, hlast]; rfl
  have hmem : dictMem (prepopulateCache m) (strLower ext) = true := by
    rw [dictMem, hget]; rfl
  simp [organizeResolve, get_category_for_extension, hne, hmem, hget]

/-- Witness for C1 (amended): ".X" is registered only under "B" (as ".X")
and under "A" differently; the last-iterated matching category "B" wins,
case-insensitively. -/
theorem last_category_wins_witness :
    organizeResolve [("A", [".x"]), ("B", [".X"])] ".X" = "B" :=
  last_category_wins _ _ _ [".X"] (by decide) (by decide)

/-- C2: if the destination path does not exist, `handle_collision` returns
it unchanged; if it exists, the result is the candidate `stem_N.suffix` for
the smallest `N ≥ 1` whose candidate does not exist; and in all cases the
returned path does not exist at call time. -/
theorem handle_collision_correct (fs : List FsPath) (p : FsPath) :
    (p ∉ fs → handle_collision fs p = p) ∧
    (p ∈ fs → ∃ N, 1 ≤ N ∧ handle_collision fs p = collisionCandidate p N ∧
        collisionCandidate p N ∉ fs ∧
        ∀ M, 1 ≤ M → M < N → collisionCandidate p M ∈ fs) ∧
    handle_collision fs p ∉ fs := by
  refine ⟨fun h => by simp [handle_collision, h], fun h => ?_, ?_⟩
  · refine ⟨Nat.find (exists_free_candidate_succ fs p) + 1, by omega,
      by simp [handle_collision, h], Nat.find_spec (exists_free_candidate_succ fs p),
      fun M h1 hM => ?_⟩
    have hmin := Nat.find_min (exists_free_candidate_succ fs p) (m := M - 1) (by omega)
    have hM' : M - 1 + 1 = M := by omega
    rw [hM'] at hmin
    exact not_not.mp hmin
  · by_cases h : p ∈ fs
    · simp only [handle_collision, if_pos h]
      exact Nat.find_spec (exists_free_candidate_succ fs p)
    · simp only [handle_collision, if_neg h]
      exact h

/-- Witness for C2 at a concrete filesystem where both the destination and
its first candidate exist. -/
theorem handle_collision_correct_witness :
    (⟨["Images"], "image.png"⟩ : FsPath) ∈
        [(⟨["Images"], "image.png"⟩ : FsPath), ⟨["Images"], "image_1.png"⟩] ∧
      (∃ N, 1 ≤ N ∧
        handle_collision [(⟨["Images"], "image.png"⟩ : FsPath), ⟨["Images"], "image_1.png"⟩]
            ⟨["Images"], "image.png"⟩ = collisionCandidate ⟨["Images"], "image.png"⟩ N ∧
        collisionCandidate ⟨["Images"], "image.png"⟩ N ∉
          [(⟨["Images"], "image.png"⟩ : FsPath), ⟨["Images"], "image_1.png"⟩] ∧
        ∀ M, 1 ≤ M → M < N → collisionCandidate ⟨["Images"], "image.png"⟩ M ∈
          [(⟨["Images"], "image.png"⟩ : FsPath), ⟨["Images"], "image_1.png"⟩]) :=
  ⟨by decide,
    (handle_collision_correct
      [⟨["Images"], "image.png"⟩, ⟨["Images"], "image_1.png"⟩]
      ⟨["Images"], "image.png"⟩).2.1 (by decide)⟩

/-- C7: an extension absent (after normalization) from every category's
list resolves, through the lookup used by `organize_files`, to the default
category "Others"; and the empty extension returns the default immediately,
leaving the cache untouched. -/
theorem unknown_extension_defaults (m : CategoryMap) (ext : String)
    (habs : ∀ q ∈ m, ∀ x ∈ q.2, strLower x ≠ strLower ext) :
    organizeResolve m ext = DEFAULT_OTHERS_FOLDER ∧
      ∀ cache : Cache,
        get_category_for_extension "" m cache = (DEFAULT_OTHERS_FOLDER, cache) := by
  constructor
  · by_cases he : strLower ext = ""
    · simp [organizeResolve, get_category_for_extension, he]
    · have hfind : m.reverse.find?
          (fun q => q.2.any (fun x => strLower x == strLower ext)) = none := by
        rw [List.find?_eq_none]
        intro q hq
        simp only [List.any_eq_true, beq_iff_eq, not_exists, not_and]
        exact fun x hx => habs q (List.mem_reverse.mp hq) x hx
      have hget : dictGet? (prepopulateCache m) (strLower ext) = none := by
        rw [dictGet?_prepopulate, hfind]; rfl
      have hmem : dictMem (prepopulateCache m) (strLower ext) = false := by
        rw [dictMem, hget]; rfl
      simp only [organizeResolve, get_category_for_extension, he, if_false,
        hmem, Bool.false_eq_true, strLower_idem]
      by_cases hemp : (prepopulateCache m).isEmpty
      · have hnil : prepopulateCache m = [] := by
          rwa [List.isEmpty_iff] at hemp
        rw [if_pos hemp, dictGet?_fwBuild_absent m (prepopulateCache m) (strLower ext)
          (fun q hq x hx => habs q hq x hx), hnil]
        rfl
      · rw [if_neg hemp, hget]
        rfl
  · intro cache
    simp [get_category_for_extension]

/-- Witness for C7: ".txt" is not registered in a map that only knows
".png", so it resolves to "Others"; the empty extension leaves a nonempty
cache unchanged. -/
theorem unknown_extension_defaults_witness :
    organizeResolve [("Images", [".png"])] ".txt" = DEFAULT_OTHERS_FOLDER ∧
      get_category_for_extension "" [("Images", [".png"])] [(".png", "Images")]
        = (DEFAULT_OTHERS_FOLDER, [(".png", "Images")]) :=
  ⟨(unknown_extension_defaults [("Images", [".png"])] ".txt" (by decide)).1,
    (unknown_extension_defaults [("Images", [".png"])] ".txt" (by decide)).2
      [(".png", "Images")]⟩

/-- C8: `handle_collision` terminates on every finite filesystem: candidate
names with distinct counters are pairwise distinct paths, so some candidate
with counter `≥ 1` is free of the finitely many existing paths, and the
existence-check loop reaches it after finitely many iterations. -/
theorem handle_collision_terminates (fs : List FsPath) (p : FsPath) :
    (∀ m n : Nat, m ≠ n → collisionCandidate p m ≠ collisionCandidate p n) ∧
      ∃ n, 1 ≤ n ∧ collisionCandidate p n ∉ fs := by
  constructor
  · exact fun m n hmn h => hmn (collisionCandidate_inj p h)
  · obtain ⟨n, h1, hn⟩ := exists_free_candidate p fs 1
    exact ⟨n, h1, hn⟩

/-- Witness for C8 at a concrete path and filesystem. -/
theorem handle_collision_terminates_witness :
    (collisionCandidate ⟨["d"], "f.txt"⟩ 1 ≠ collisionCandidate ⟨["d"], "f.txt"⟩ 2) ∧
      ∃ n, 1 ≤ n ∧ collisionCandidate ⟨["d"], "f.txt"⟩ n ∉
        [(⟨["d"], "f.txt"⟩ : FsPath)] :=
  ⟨(handle_collision_terminates [⟨["d"], "f.txt"⟩] ⟨["d"], "f.txt"⟩).1 1 2 (by decide),
    (handle_collision_terminates [⟨["d"], "f.txt"⟩] ⟨["d"], "f.txt"⟩).2⟩

/-- C3: a dry run of `organize_files` performs no filesystem mutation at
all: for every target state, CategoryMap and failure oracles the final
filesystem (target listing, names and kinds included, and the contents of
every category folder) equals the initial one. -/
theorem dry_run_is_noop (t : Bool) (fs : FS) (m : CategoryMap)
    (mkF mvF : String → Bool) :
    (organize_files t fs m true mkF mvF).1 = fs := by
  cases t
  · rfl
  · have h := foldl_dry_preserves m mkF mvF fs.targetEntries
      (⟨fs, 0, 0⟩, prepopulateCache m)
    simpa [organize_files] using h.1

/-- C9: a dry run always reports a skipped count of exactly zero: both
increments of the skipped counter sit in real-mode branches. -/
theorem dry_run_zero_skipped (t : Bool) (fs : FS) (m : CategoryMap)
    (mkF mvF : String → Bool) :
    (organize_files t fs m true mkF mvF).2.2 = 0 := by
  cases t
  · rfl
  · have h := foldl_dry_preserves m mkF mvF fs.targetEntries
      (⟨fs, 0, 0⟩, prepopulateCache m)
    simpa [organize_files] using h.2

/-- C6: when the target path is missing or not a directory (the `is_dir`
precondition of line 103 fails), `organize_files` returns immediately: the
filesystem is unchanged, no entry is processed, and the moved and skipped
counters are zero. -/
theorem missing_target_aborts (fs : FS) (m : CategoryMap) (dry : Bool)
    (mkF mvF : String → Bool) :
    organize_files false fs m dry mkF mvF = (fs, 0, 0) := rfl

/-- C4: an entry named like the script, the config file or the log file,
and a directory entry named like a known category folder (a CategoryMap key
or the default category), is skipped by the scan step without any state
change, in dry-run and real mode alike; consequently such an entry present
in the target listing is still present after a whole run. -/
theorem protected_never_moved (m : CategoryMap) (e : Entry)
    (hp : e.name = SCRIPT_NAME ∨ e.name = CONFIG_FILE_NAME ∨ e.name = LOG_FILE_NAME ∨
      (e.kind = EntryKind.dir ∧ e.name ∈ knownCategoryFolders m)) :
    (∀ (dry : Bool) (mkF mvF : String → Bool) (sc : ScanState × Cache),
      scanStep m dry mkF mvF sc e = sc) ∧
    (∀ (dry : Bool) (mkF mvF : String → Bool) (fs : FS),
      e ∈ fs.targetEntries →
        e ∈ (organize_files true fs m dry mkF mvF).1.targetEntries) := by
  have hp' : protectedEntry m e := hp
  constructor
  · intro dry mkF mvF sc
    simp [scanStep, hp']
  · intro dry mkF mvF fs h
    have hmem := mem_foldl_protected m dry mkF mvF e hp' fs.targetEntries
      (⟨fs, 0, 0⟩, prepopulateCache m) h
    simpa [organize_files] using hmem

/-- Witness for C4: the directory entry "Others" (the default category
folder) is skipped and survives a full real run. -/
theorem protected_never_moved_witness :
    scanStep [("Images", [".png"])] false (fun _ => false) (fun _ => false)
        ((⟨⟨[⟨"Others", EntryKind.dir⟩], []⟩, 0, 0⟩ : ScanState), ([] : Cache))
        ⟨"Others", EntryKind.dir⟩
      = ((⟨⟨[⟨"Others", EntryKind.dir⟩], []⟩, 0, 0⟩ : ScanState), ([] : Cache)) ∧
    (⟨"Others", EntryKind.dir⟩ : Entry) ∈
      (organize_files true ⟨[⟨"Others", EntryKind.dir⟩], []⟩ [("Images", [".png"])]
        false (fun _ => false) (fun _ => false)).1.targetEntries :=
  ⟨(protected_never_moved [("Images", [".png"])] ⟨"Others", EntryKind.dir⟩
      (by decide)).1 false (fun _ => false) (fun _ => false) _,
    (protected_never_moved [("Images", [".png"])] ⟨"Others", EntryKind.dir⟩
      (by decide)).2 false (fun _ => false) (fun _ => false) _ (by decide)⟩

/-- C5: per-file errors are isolated.  For a non-protected file entry in
real mode: if the mkdir of line 146 raises, the step only increments the
skipped counter (the filesystem is untouched, so no move was attempted); if
the mkdir succeeds and the move of line 167 raises, the step keeps the
mkdir effect and only increments the skipped counter; and the fold
processes the remaining entries from the resulting state, so the scan
continues after either failure — no exception escapes the embedded scan,
which is a total function. -/
theorem per_file_errors_isolated (m : CategoryMap) (mkF mvF : String → Bool)
    (e : Entry) (s : ScanState) (c : Cache)
    (hprot : ¬ protectedEntry m e) (hfile : e.kind = EntryKind.file) :
    (mkF e.name = true →
      scanStep m false mkF mvF (s, c) e =
        ({ s with skipped := s.skipped + 1 },
          (get_category_for_extension (strLower (pySuffix e.name)) m c).2)) ∧
    (mkF e.name = false → mvF e.name = true →
      scanStep m false mkF mvF (s, c) e =
        ({ s with
            fs := mkdirEffect s.fs
              (get_category_for_extension (strLower (pySuffix e.name)) m c).1,
            skipped := s.skipped + 1 },
          (get_category_for_extension (strLower (pySuffix e.name)) m c).2)) ∧
    (∀ (l : List Entry) (sc : ScanState × Cache),
      (e :: l).foldl (scanStep m false mkF mvF) sc =
        l.foldl (scanStep m false mkF mvF) (scanStep m false mkF mvF sc e)) := by
  refine ⟨?_, ?_, fun l sc => List.foldl_cons ..⟩
  · intro hmk
    simp [scanStep, hprot, hfile, processFile, hmk]
  · intro hmk hmv
    simp [scanStep, hprot, hfile, processFile, hmk, hmv]

/-- Witness for C5: a failing mkdir for "a.png" increments only the skipped
counter. -/
theorem per_file_errors_isolated_witness :
    scanStep [("Images", [".png"])] false (fun _ => true) (fun _ => false)
        ((⟨⟨[⟨"a.png", EntryKind.file⟩], []⟩, 0, 0⟩ : ScanState), ([] : Cache))
        ⟨"a.png", EntryKind.file⟩ =
      ((⟨⟨[⟨"a.png", EntryKind.file⟩], []⟩, 0, 1⟩ : ScanState),
        (get_category_for_extension (strLower (pySuffix "a.png"))
          [("Images", [".png"])] []).2) :=
  (per_file_errors_isolated [("Images", [".png"])] (fun _ => true) (fun _ => false)
    ⟨"a.png", EntryKind.file⟩ ⟨⟨[⟨"a.png", EntryKind.file⟩], []⟩, 0, 0⟩ []
    (by decide) rfl).1 rfl

/-- C10: a regular file whose name equals a known category folder name
(including the default "Others") but none of the three protected file names
is NOT protected: the scan step hands it to the ordinary per-file
processing, and in real mode with no failures it is moved (the moved
counter increments and the entry leaves the target listing) like any other
file — the category-name skip of line 128 applies only to directories. -/
theorem category_named_file_is_organized (m : CategoryMap) (e : Entry)
    (hfile : e.kind = EntryKind.file)
    (hcat : e.name ∈ knownCategoryFolders m)
    (h1 : e.name ≠ SCRIPT_NAME) (h2 : e.name ≠ CONFIG_FILE_NAME)
    (h3 : e.name ≠ LOG_FILE_NAME) :
    ¬ protectedEntry m e ∧
    (∀ (dry : Bool) (mkF mvF : String → Bool) (sc : ScanState × Cache),
      scanStep m dry mkF mvF sc e = processFile m dry mkF mvF e sc.1 sc.2) ∧
    (∀ (mkF mvF : String → Bool) (s : ScanState) (c : Cache),
      mkF e.name = false → mvF e.name = false →
        (scanStep m false mkF mvF (s, c) e).1.moved = s.moved + 1 ∧
        (scanStep m false mkF mvF (s, c) e).1.fs.targetEntries =
          ((mkdirEffect s.fs
            (get_category_for_extension (strLower (pySuffix e.name)) m c).1).targetEntries).erase e) := by
  have hprot : ¬ protectedEntry m e := by
    intro hp
    rcases hp with h | h | h | ⟨hk, _⟩
    · exact h1 h
    · exact h2 h
    · exact h3 h
    · rw [hfile] at hk
      exact EntryKind.noConfusion hk
  refine ⟨hprot, ?_, ?_⟩
  · intro dry mkF mvF sc
    simp [scanStep, hprot, hfile]
  · intro mkF mvF s c hmk hmv
    constructor
    · simp [scanStep, hprot, hfile, processFile, hmk, hmv]
    · simp [scanStep, hprot, hfile, processFile, hmk, hmv, moveEffect]

/-- Witness for C10: a FILE named "Others" is not protected and is handed
to the ordinary per-file processing. -/
theorem category_named_file_is_organized_witness :
    ¬ protectedEntry [("Images", [".png"])] ⟨"Others", EntryKind.file⟩ ∧
      scanStep [("Images", [".png"])] true (fun _ => false) (fun _ => false)
          ((⟨⟨[⟨"Others", EntryKind.file⟩], []⟩, 0, 0⟩ : ScanState), ([] : Cache))
          ⟨"Others", EntryKind.file⟩
        = processFile [("Images", [".png"])] true (fun _ => false) (fun _ => false)
            ⟨"Others", EntryKind.file⟩ ⟨⟨[⟨"Others", EntryKind.file⟩], []⟩, 0, 0⟩ [] :=
  ⟨(category_named_file_is_organized [("Images", [".png"])] ⟨"Others", EntryKind.file⟩
      rfl (by decide) (by decide) (by decide) (by decide)).1,
    (category_named_file_is_organized [("Images", [".png"])] ⟨"Others", EntryKind.file⟩
      rfl (by decide) (by decide) (by decide) (by decide)).2.1 true
      (fun _ => false) (fun _ => false) _⟩

end Organizer
